import Mathlib

/-!
Verification of the receipt-image preprocessing core of
`myappassistant-chat-frontend/src-tauri/src/lib.rs`: the image compressor
(`compress_image`), the contour detector (`detect_receipt_contour`) and the
quality analyzer (`analyze_image_quality`).

Modelling conventions for the shallow embedding:

* `f32`/`f64` arithmetic is modelled by exact rationals `ℚ`.  The source never
  relies on float rounding; every constant appearing in it (1.5, 4.0, 0.2, 0.3,
  0.5, 0.7, 0.8, 0.9, 255.0) is compared or combined in ways where the exact
  rational value is the intended meaning.
* `u32` values are `Nat`; wrap-around of the `u32` accumulators in the quality
  analyzer is made explicit with `% 4294967296` (Rust release-mode overflow
  semantics), and the saturating `as u32` cast of a float is `f32toU32`.
* The external codecs used by the source (the `base64` engine, the `image`
  crate's decoders and the JPEG/PNG encoders, and Lanczos3 pixel resampling)
  are abstract parameters collected in a `Codec` structure: their byte-level
  output never influences the claims under verification, only success/failure
  and the byte lengths do.  The dimension computation of
  `DynamicImage::resize` (`image::math::resize_dimensions`), which the claims
  do depend on, is embedded concretely as `resize_dimensions`.
-/

namespace ReceiptCore

/-- One RGB pixel sample (the `image::Rgb<u8>` values produced by `to_rgb8`);
channels are byte values. -/
structure Rgb where
  r : Nat
  g : Nat
  b : Nat
  deriving DecidableEq

/-- An in-memory raster: dimensions plus row-major pixel samples
(`image::RgbImage`). -/
structure RgbImage where
  width : Nat
  height : Nat
  pixels : List Rgb
  deriving DecidableEq

/-- `ImageCompressionOptions` of lib.rs lines 31-36. -/
structure ImageCompressionOptions where
  max_width : Option Nat
  max_height : Option Nat
  quality : Option Nat
  format : Option String
  deriving DecidableEq

/-- `CompressedImageResult` of lib.rs lines 38-46. -/
structure CompressedImageResult where
  data : String
  format : String
  width : Nat
  height : Nat
  size_bytes : Nat
  compression_ratio : ℚ
  deriving DecidableEq

/-- `ImageQualityResult` of lib.rs lines 48-55. -/
structure ImageQualityResult where
  sharpness_score : ℚ
  contrast_score : ℚ
  brightness_score : ℚ
  overall_quality : ℚ
  recommendations : List String
  deriving DecidableEq

/-- `ReceiptContourResult` of lib.rs lines 57-64. -/
structure ReceiptContourResult where
  detected : Bool
  confidence : ℚ
  corners : Option (List (ℚ × ℚ))
  bounding_box : Option (ℚ × ℚ × ℚ × ℚ)
  angle : Option ℚ
  deriving DecidableEq

/-- The external, byte-level collaborators of the core, abstracted: base64
decode/encode (`general_purpose::STANDARD`), `image::load_from_memory`
composed with `to_rgb8`, the JPEG/PNG encoders (`None` models a codec-level
failure), and the Lanczos3 resampler (only ever applied at dimensions chosen
by `resize_dimensions`). -/
structure Codec where
  b64decode : String → Option (List Nat)
  b64encode : List Nat → String
  loadFromMemory : List Nat → Option RgbImage
  encodeJpeg : RgbImage → Nat → Option (List Nat)
  encodePng : RgbImage → Option (List Nat)
  resample : List Rgb → Nat → Nat → List Rgb

/-- Facts true of the real collaborators: an empty byte payload is not a
decodable image, and a successful JPEG/PNG encode always produces at least
one output byte (both container formats have mandatory headers). -/
def Codec.WF (c : Codec) : Prop :=
  (∀ bytes img, c.loadFromMemory bytes = some img → bytes ≠ []) ∧
  (∀ img q out, c.encodeJpeg img q = some out → out ≠ []) ∧
  (∀ img out, c.encodePng img = some out → out ≠ [])

/-- 2^32, the modulus of `u32` arithmetic. -/
def u32Mod : Nat := 4294967296

/-- `u32::MAX`. -/
def u32Max : Nat := 4294967295

/-- `f64::round` / `f32::round`: round half away from zero. -/
def rround (q : ℚ) : Int := if 0 ≤ q then ⌊q + 1/2⌋ else ⌈q - 1/2⌉

/-- Rust's saturating float-to-`u32` cast (`as u32`): truncates toward zero
and clamps into `0..=u32::MAX`. -/
def f32toU32 (q : ℚ) : Nat := if q ≤ 0 then 0 else min ⌊q⌋.toNat u32Max

/-- ASCII lowercasing of one character, as `str::to_lowercase` acts on the
format names occurring here (all pure ASCII). -/
def asciiToLower (ch : Char) : Char :=
  if 'A' ≤ ch ∧ ch ≤ 'Z' then Char.ofNat (ch.toNat + 32) else ch

/-- `str::to_lowercase` restricted to ASCII strings. -/
def lowerStr (s : String) : String := String.mk (s.data.map asciiToLower)

/-- `image::math::resize_dimensions(width, height, nwidth, nheight, false)`,
the dimension computation behind `DynamicImage::resize`: scale by the
smaller of the two bound ratios (aspect-preserving fit), round, force a
minimum of 1, and clamp to `u32::MAX` re-deriving the other side. -/
def resize_dimensions (width height nwidth nheight : Nat) : Nat × Nat :=
  let wratio : ℚ := (nwidth : ℚ) / (width : ℚ)
  let hratio : ℚ := (nheight : ℚ) / (height : ℚ)
  let ratio := min wratio hratio
  let nw := max (rround ((width : ℚ) * ratio)).toNat 1
  let nh := max (rround ((height : ℚ) * ratio)).toNat 1
  if u32Max < nw then
    let ratio2 : ℚ := (u32Max : ℚ) / (width : ℚ)
    (u32Max, max (rround ((height : ℚ) * ratio2)).toNat 1)
  else if u32Max < nh then
    let ratio2 : ℚ := (u32Max : ℚ) / (height : ℚ)
    (max (rround ((width : ℚ) * ratio2)).toNat 1, u32Max)
  else
    (nw, nh)

/-- `DynamicImage::resize(nwidth, nheight, Lanczos3)`: identity when the
bounds equal the current dimensions, otherwise resample at the
aspect-preserving fit dimensions. -/
def dynResize (c : Codec) (img : RgbImage) (nwidth nheight : Nat) : RgbImage :=
  if nwidth = img.width ∧ nheight = img.height then img
  else
    let d := resize_dimensions img.width img.height nwidth nheight
    { width := d.1, height := d.2, pixels := c.resample img.pixels d.1 d.2 }

/-- The resize-bound selection of `compress_image` (lib.rs lines 210-220):
both bounds given are passed straight to `resize`; a single bound derives the
other via an f32 ratio truncated by an `as u32` cast; no bound means no
resize (`none`). -/
def resizeTarget (options : ImageCompressionOptions)
    (original_width original_height : Nat) : Option (Nat × Nat) :=
  match options.max_width, options.max_height with
  | some mw, some mh => some (mw, mh)
  | some mw, none =>
    let ratio : ℚ := (mw : ℚ) / (original_width : ℚ)
    some (mw, f32toU32 ((original_height : ℚ) * ratio))
  | none, some mh =>
    let ratio : ℚ := (mh : ℚ) / (original_height : ℚ)
    some (f32toU32 ((original_width : ℚ) * ratio), mh)
  | none, none => none

/-- The raster `compress_image` encodes: the decoded image, resized when any
bound is given (lib.rs lines 209-220). -/
def resizedImg (c : Codec) (options : ImageCompressionOptions)
    (img0 : RgbImage) : RgbImage :=
  match resizeTarget options img0.width img0.height with
  | some (nw, nh) => dynResize c img0 nw nh
  | none => img0

/-- The output-format dispatch of `compress_image` (lib.rs lines 226-246):
lowercased format name selects the JPEG or PNG encoder, "webp" is rejected
outright, anything else is an unsupported format. -/
def encodeOutput (c : Codec) (img : RgbImage) (format : String)
    (quality : Nat) : Except String (List Nat) :=
  match lowerStr format with
  | "jpeg" | "jpg" =>
    match c.encodeJpeg img quality with
    | some out => Except.ok out
    | none => Except.error ("Failed to encode JPEG")
  | "png" =>
    match c.encodePng img with
    | some out => Except.ok out
    | none => Except.error ("Failed to encode PNG")
  | "webp" => Except.error ("WebP encoding not yet supported")
  | _ => Except.error ("Unsupported format: " ++ format)

/-- `compress_image` (lib.rs lines 192-261): base64-decode, decode the image,
resize per options, re-encode, and report dimensions, encoded-output byte
length and `original_size / output_size` as the compression ratio, where
`original_size` is the byte length of the base64-decoded input payload. -/
def compress_image (c : Codec) (image_data : String)
    (options : ImageCompressionOptions) : Except String CompressedImageResult :=
  match c.b64decode image_data with
  | none => Except.error ("Failed to decode base64")
  | some image_bytes =>
    match c.loadFromMemory image_bytes with
    | none => Except.error ("Failed to load image")
    | some img0 =>
      let img := resizedImg c options img0
      let format := options.format.getD ("jpeg")
      let quality := options.quality.getD 85
      match encodeOutput c img format quality with
      | Except.error e => Except.error e
      | Except.ok output_buffer =>
        Except.ok
          { data := c.b64encode output_buffer
            format := format
            width := img.width
            height := img.height
            size_bytes := output_buffer.length
            compression_ratio :=
              (image_bytes.length : ℚ) / (output_buffer.length : ℚ) }

/-- The classification core of `detect_receipt_contour` (lib.rs lines
284-312): receipt-like exactly when the aspect ratio lies strictly between
1.5 and 4.0; then the whole frame is reported as the contour with fixed
confidence 0.8, else nothing with fixed confidence 0.2. -/
def detectFromDims (width height : Nat) : ReceiptContourResult :=
  let aspect : ℚ := (width : ℚ) / (height : ℚ)
  if 1.5 < aspect ∧ aspect < 4.0 then
    { detected := true
      confidence := 0.8
      corners := some [(0, 0), ((width : ℚ), 0),
        ((width : ℚ), (height : ℚ)), (0, (height : ℚ))]
      bounding_box := some (0, 0, (width : ℚ), (height : ℚ))
      angle := some 0 }
  else
    { detected := false
      confidence := 0.2
      corners := none
      bounding_box := none
      angle := none }

/-- `detect_receipt_contour` (lib.rs lines 265-313). -/
def detect_receipt_contour (c : Codec) (image_data : String) :
    Except String ReceiptContourResult :=
  match c.b64decode image_data with
  | none => Except.error ("Failed to decode base64")
  | some image_bytes =>
    match c.loadFromMemory image_bytes with
    | none => Except.error ("Failed to load image")
    | some img => Except.ok (detectFromDims img.width img.height)

/-- Per-pixel brightness `(R + G + B) / 3` in `u32` integer division
(lib.rs line 338). -/
def pixelBrightness (p : Rgb) : Nat := (p.r + p.g + p.b) / 3

/-- The `total_brightness` accumulator of lib.rs lines 333-341: a `u32`
sum, hence wrapping modulo 2^32 on every addition. -/
def total_brightness (pixels : List Rgb) : Nat :=
  pixels.foldl (fun acc p => (acc + pixelBrightness p) % u32Mod) 0

/-- The `total_pixels` counter of lib.rs lines 334-341, also a `u32`. -/
def total_pixels (pixels : List Rgb) : Nat :=
  pixels.foldl (fun acc _ => (acc + 1) % u32Mod) 0

/-- `avg_brightness` (lib.rs line 343). -/
def avg_brightness (pixels : List Rgb) : ℚ :=
  (total_brightness pixels : ℚ) / (total_pixels pixels : ℚ)

/-- `brightness_score` (lib.rs line 346). -/
def brightness_score (pixels : List Rgb) : ℚ :=
  min (avg_brightness pixels / 255) 1

/-- The fixed placeholder `sharpness_score` (lib.rs line 347). -/
def sharpness_score : ℚ := 0.7

/-- The fixed placeholder `contrast_score` (lib.rs line 348). -/
def contrast_score : ℚ := 0.8

/-- `overall_quality` (lib.rs line 350). -/
def overall_quality (pixels : List Rgb) : ℚ :=
  (brightness_score pixels + sharpness_score + contrast_score) / 3

/-- Recommendation string of lib.rs line 356. -/
def msgTooDark : String :=
  "Obraz jest zbyt ciemny. Spróbuj lepszego oświetlenia."

/-- Recommendation string of lib.rs line 358. -/
def msgOverexposed : String := "Obraz może być prześwietlony. Zmniejsz jasność."

/-- Recommendation string of lib.rs line 362. -/
def msgBlurry : String :=
  "Obraz może być nieostry. Upewnij się, że aparat jest stabilny."

/-- Recommendation string of lib.rs line 366. -/
def msgLowContrast : String := "Kontrast jest niski. Spróbuj lepszego oświetlenia."

/-- Recommendation string of lib.rs line 370. -/
def msgGood : String := "Jakość obrazu jest dobra."

/-- The recommendation generation of lib.rs lines 353-371: brightness rules
(an if/else-if pair), then sharpness, then contrast, then the fallback when
nothing triggered. -/
def recommendationsFor (pixels : List Rgb) : List String :=
  let r1 : List String :=
    if brightness_score pixels < 0.3 then [msgTooDark]
    else if 0.9 < brightness_score pixels then [msgOverexposed]
    else []
  let r2 := r1 ++ (if sharpness_score < 0.5 then [msgBlurry] else [])
  let r3 := r2 ++ (if contrast_score < 0.5 then [msgLowContrast] else [])
  if r3.isEmpty then [msgGood] else r3

/-- The post-decode body of `analyze_image_quality` (lib.rs lines 329-379). -/
def analyzeRaster (pixels : List Rgb) : ImageQualityResult :=
  { sharpness_score := sharpness_score
    contrast_score := contrast_score
    brightness_score := brightness_score pixels
    overall_quality := overall_quality pixels
    recommendations := recommendationsFor pixels }

/-- `analyze_image_quality` (lib.rs lines 317-380). -/
def analyze_image_quality (c : Codec) (image_data : String) :
    Except String ImageQualityResult :=
  match c.b64decode image_data with
  | none => Except.error ("Failed to decode base64")
  | some image_bytes =>
    match c.loadFromMemory image_bytes with
    | none => Except.error ("Failed to load image")
    | some img => Except.ok (analyzeRaster img.pixels)

/-- The mathematical (unwrapped) total brightness of a raster, used to state
properties of the wrapping `u32` accumulator. -/
def brightnessSum (pixels : List Rgb) : Nat :=
  (pixels.map pixelBrightness).sum

/-- Every channel of every pixel is a byte value, as `to_rgb8` guarantees. -/
def BytePixels (pixels : List Rgb) : Prop :=
  ∀ p ∈ pixels, p.r ≤ 255 ∧ p.g ≤ 255 ∧ p.b ≤ 255

/-- A concrete codec instantiation for witnesses: decodes any nonempty
payload to the fixed raster `img`, encodes to the single byte 42. -/
def mkCodec (img : RgbImage) : Codec :=
  { b64decode := fun s => some (s.data.map Char.toNat)
    b64encode := fun _ => "out"
    loadFromMemory := fun bytes => if bytes.isEmpty then none else some img
    encodeJpeg := fun _ _ => some [42]
    encodePng := fun _ => some [42]
    resample := fun ps _ _ => ps }

/-! ## Helper lemmas -/

theorem rround_natCast (n : Nat) : rround (n : ℚ) = (n : Int) := by
  rw [rround, if_pos (by positivity)]
  have : ((n : ℚ) + 1/2) = ((n : Int) : ℚ) + 1/2 := by push_cast; ring
  rw [this]
  rw [show ((n : Int) : ℚ) + 1/2 = 1/2 + ((n : Int) : ℚ) by ring]
  rw [Int.floor_add_int]
  norm_num

theorem rround_nonneg {q : ℚ} (hq : 0 ≤ q) : 0 ≤ rround q := by
  rw [rround, if_pos hq]
  exact Int.floor_nonneg.mpr (by linarith)

theorem floor_le_rround {q : ℚ} (hq : 0 ≤ q) : ⌊q⌋ ≤ rround q := by
  rw [rround, if_pos hq]
  exact Int.floor_mono (by linarith)

theorem rround_le_floor_add_one {q : ℚ} (hq : 0 ≤ q) : rround q ≤ ⌊q⌋ + 1 := by
  rw [rround, if_pos hq]
  have h1 : q < (⌊q⌋ : ℚ) + 1 := Int.lt_floor_add_one q
  have : ⌊q + 1/2⌋ < ⌊q⌋ + 2 := by
    rw [Int.floor_lt]
    push_cast
    linarith
  omega

theorem rround_mono {a b : ℚ} (ha : 0 ≤ a) (hab : a ≤ b) :
    rround a ≤ rround b := by
  rw [rround, rround, if_pos ha, if_pos (le_trans ha hab)]
  exact Int.floor_mono (by linarith)

/-- The dimension the source reaches (floor forced up to 1) is within one
pixel of the true rounded target. -/
theorem round_near_floor (q : ℚ) (hq : 0 ≤ q) :
    |(max ⌊q⌋.toNat 1 : ℤ) - rround q| ≤ 1 := by
  have h0 : (0 : ℤ) ≤ ⌊q⌋ := Int.floor_nonneg.mpr hq
  have h1 : ⌊q⌋ ≤ rround q := floor_le_rround hq
  have h2 : rround q ≤ ⌊q⌋ + 1 := rround_le_floor_add_one hq
  have h3 : (⌊q⌋.toNat : ℤ) = ⌊q⌋ := Int.toNat_of_nonneg h0
  rw [h3, abs_le]
  constructor <;> rcases max_cases ⌊q⌋ (1 : ℤ) with ⟨hm, _⟩ | ⟨hm, _⟩ <;> omega

theorem f32toU32_eq_floor {q : ℚ} (h0 : 0 ≤ q) (h1 : q ≤ (u32Max : ℚ)) :
    f32toU32 q = ⌊q⌋.toNat := by
  rw [f32toU32]
  rcases eq_or_lt_of_le h0 with h | h
  · rw [if_pos (le_of_eq h.symm)]
    rw [← h]
    simp
  · rw [if_neg (by linarith)]
    have hfl : ⌊q⌋ ≤ (u32Max : ℤ) := by
      have hcastU : (⌊((u32Max : Nat) : ℚ)⌋ : ℤ) = (u32Max : ℤ) :=
        Int.floor_natCast u32Max
      rw [← hcastU]
      exact Int.floor_mono h1
    have : ⌊q⌋.toNat ≤ u32Max := by omega
    exact min_eq_left this

theorem foldl_mod (f : Rgb → Nat) :
    ∀ (ps : List Rgb) (a : Nat), a < u32Mod →
      ps.foldl (fun acc p => (acc + f p) % u32Mod) a = (a + (ps.map f).sum) % u32Mod := by
  intro ps
  induction ps with
  | nil =>
    intro a ha
    simpa using (Nat.mod_eq_of_lt ha).symm
  | cons p rest ih =>
    intro a ha
    have hstep : (a + f p) % u32Mod < u32Mod :=
      Nat.mod_lt _ (by rw [u32Mod]; omega)
    simp only [List.foldl_cons, List.map_cons, List.sum_cons]
    rw [ih _ hstep, Nat.mod_add_mod]
    congr 1
    omega

theorem total_brightness_eq (pixels : List Rgb) :
    total_brightness pixels = brightnessSum pixels % u32Mod := by
  have := foldl_mod pixelBrightness pixels 0 (by rw [u32Mod]; omega)
  simpa [total_brightness, brightnessSum] using this

theorem total_pixels_eq (pixels : List Rgb) :
    total_pixels pixels = pixels.length % u32Mod := by
  have hlen : (pixels.map fun _ => (1 : Nat)).sum = pixels.length := by
    induction pixels with
    | nil => simp
    | cons p rest ih => simp [ih]; omega
  have h := foldl_mod (fun _ => 1) pixels 0 (by rw [u32Mod]; omega)
  rw [total_pixels]
  rw [show (fun (acc : Nat) (_ : Rgb) => (acc + 1) % u32Mod)
      = fun (acc : Nat) (p : Rgb) => (acc + (fun _ => 1) p) % u32Mod from rfl]
  rw [h, hlen]
  simp

theorem sum_map_const_of_mem {f : Rgb → Nat} {v : Nat} :
    ∀ (ps : List Rgb), (∀ p ∈ ps, f p = v) → (ps.map f).sum = ps.length * v := by
  intro ps
  induction ps with
  | nil => simp
  | cons p rest ih =>
    intro h
    simp only [List.map_cons, List.sum_cons, List.length_cons]
    rw [h p (by simp), ih (fun q hq => h q (by simp [hq]))]
    ring

/-- When the height bound is the tighter one, `resize_dimensions` scales by
its ratio: the output height is the (1-clamped) bound, the width follows. -/
theorem resize_dimensions_fitH (w h nw nh : Nat) (hw : 1 ≤ w) (hh : 1 ≤ h)
    (hnw : nw ≤ u32Max) (hnh : nh ≤ u32Max)
    (hcond : (nh : ℚ) / (h : ℚ) ≤ (nw : ℚ) / (w : ℚ)) :
    resize_dimensions w h nw nh =
      (max (rround ((w : ℚ) * ((nh : ℚ) / (h : ℚ)))).toNat 1, max nh 1) := by
  have hw0 : (0 : ℚ) < (w : ℚ) := by exact_mod_cast Nat.lt_of_lt_of_le Nat.zero_lt_one hw
  have hh0 : (0 : ℚ) < (h : ℚ) := by exact_mod_cast Nat.lt_of_lt_of_le Nat.zero_lt_one hh
  have hmin : min ((nw : ℚ) / (w : ℚ)) ((nh : ℚ) / (h : ℚ)) = (nh : ℚ) / (h : ℚ) :=
    min_eq_right hcond
  have hhmul : (h : ℚ) * ((nh : ℚ) / (h : ℚ)) = (nh : ℚ) := by
    field_simp
  have hwmulle : (w : ℚ) * ((nh : ℚ) / (h : ℚ)) ≤ (nw : ℚ) := by
    calc (w : ℚ) * ((nh : ℚ) / (h : ℚ))
        ≤ (w : ℚ) * ((nw : ℚ) / (w : ℚ)) :=
          mul_le_mul_of_nonneg_left hcond (le_of_lt hw0)
      _ = (nw : ℚ) := by field_simp
  have hnwv : (rround ((w : ℚ) * ((nh : ℚ) / (h : ℚ)))).toNat ≤ nw := by
    have h1 : rround ((w : ℚ) * ((nh : ℚ) / (h : ℚ))) ≤ rround ((nw : ℚ)) :=
      rround_mono (by positivity) hwmulle
    rw [rround_natCast] at h1
    omega
  have hnhv : rround ((h : ℚ) * ((nh : ℚ) / (h : ℚ))) = (nh : Int) := by
    rw [hhmul, rround_natCast]
  have hU : u32Max = 4294967295 := rfl
  simp only [resize_dimensions, hmin, hnhv, Int.toNat_natCast]
  rw [if_neg (by omega), if_neg (by omega)]

/-- When the width bound is the tighter one, symmetrically. -/
theorem resize_dimensions_fitW (w h nw nh : Nat) (hw : 1 ≤ w) (hh : 1 ≤ h)
    (hnw : nw ≤ u32Max) (hnh : nh ≤ u32Max)
    (hcond : (nw : ℚ) / (w : ℚ) ≤ (nh : ℚ) / (h : ℚ)) :
    resize_dimensions w h nw nh =
      (max nw 1, max (rround ((h : ℚ) * ((nw : ℚ) / (w : ℚ)))).toNat 1) := by
  have hw0 : (0 : ℚ) < (w : ℚ) := by exact_mod_cast Nat.lt_of_lt_of_le Nat.zero_lt_one hw
  have hh0 : (0 : ℚ) < (h : ℚ) := by exact_mod_cast Nat.lt_of_lt_of_le Nat.zero_lt_one hh
  have hmin : min ((nw : ℚ) / (w : ℚ)) ((nh : ℚ) / (h : ℚ)) = (nw : ℚ) / (w : ℚ) :=
    min_eq_left hcond
  have hwmul : (w : ℚ) * ((nw : ℚ) / (w : ℚ)) = (nw : ℚ) := by
    field_simp
  have hhmulle : (h : ℚ) * ((nw : ℚ) / (w : ℚ)) ≤ (nh : ℚ) := by
    calc (h : ℚ) * ((nw : ℚ) / (w : ℚ))
        ≤ (h : ℚ) * ((nh : ℚ) / (h : ℚ)) :=
          mul_le_mul_of_nonneg_left hcond (le_of_lt hh0)
      _ = (nh : ℚ) := by field_simp
  have hnhv : (rround ((h : ℚ) * ((nw : ℚ) / (w : ℚ)))).toNat ≤ nh := by
    have h1 : rround ((h : ℚ) * ((nw : ℚ) / (w : ℚ))) ≤ rround ((nh : ℚ)) :=
      rround_mono (by positivity) hhmulle
    rw [rround_natCast] at h1
    omega
  have hnwv : rround ((w : ℚ) * ((nw : ℚ) / (w : ℚ))) = (nw : Int) := by
    rw [hwmul, rround_natCast]
  have hU : u32Max = 4294967295 := rfl
  simp only [resize_dimensions, hmin, hnwv, Int.toNat_natCast]
  rw [if_neg (by omega), if_neg (by omega)]

/-- Resizing to an image's own dimensions is the identity on dimensions. -/
theorem resize_dimensions_self (w h : Nat) (hw : 1 ≤ w) (hh : 1 ≤ h)
    (hwU : w ≤ u32Max) (hhU : h ≤ u32Max) :
    resize_dimensions w h w h = (w, h) := by
  have hw0 : (0 : ℚ) < (w : ℚ) := by exact_mod_cast Nat.lt_of_lt_of_le Nat.zero_lt_one hw
  have hh0 : (0 : ℚ) < (h : ℚ) := by exact_mod_cast Nat.lt_of_lt_of_le Nat.zero_lt_one hh
  rw [resize_dimensions_fitH w h w h hw hh hwU hhU
    (by rw [div_self (ne_of_gt hh0), div_self (ne_of_gt hw0)])]
  rw [div_self (ne_of_gt hh0), mul_one, rround_natCast, Int.toNat_natCast]
  rw [Nat.max_eq_left hw, Nat.max_eq_left hh]

/-- Inversion of a successful `compress_image` call. -/
theorem compress_image_ok_inv {c : Codec} {s : String}
    {opts : ImageCompressionOptions} {res : CompressedImageResult}
    (h : compress_image c s opts = Except.ok res) :
    ∃ bytes img0 out,
      c.b64decode s = some bytes ∧ c.loadFromMemory bytes = some img0 ∧
      encodeOutput c (resizedImg c opts img0) (opts.format.getD ("jpeg"))
          (opts.quality.getD 85) = Except.ok out ∧
      res = { data := c.b64encode out
              format := opts.format.getD ("jpeg")
              width := (resizedImg c opts img0).width
              height := (resizedImg c opts img0).height
              size_bytes := out.length
              compression_ratio := (bytes.length : ℚ) / (out.length : ℚ) } := by
  unfold compress_image at h
  split at h
  · exact absurd h (by simp)
  next bytes hb =>
    split at h
    · exact absurd h (by simp)
    next img0 hl =>
      dsimp only at h
      split at h
      · exact absurd h (by simp)
      next out he =>
        refine ⟨bytes, img0, out, hb, hl, he, ?_⟩
        simp only [Except.ok.injEq] at h
        exact h.symm

/-- Inversion of a successful `detect_receipt_contour` call. -/
theorem detect_ok_inv {c : Codec} {s : String} {res : ReceiptContourResult}
    (h : detect_receipt_contour c s = Except.ok res) :
    ∃ bytes img, c.b64decode s = some bytes ∧ c.loadFromMemory bytes = some img ∧
      res = detectFromDims img.width img.height := by
  unfold detect_receipt_contour at h
  split at h
  · exact absurd h (by simp)
  next bytes hb =>
    split at h
    · exact absurd h (by simp)
    next img hl =>
      refine ⟨bytes, img, hb, hl, ?_⟩
      simp only [Except.ok.injEq] at h
      exact h.symm

/-- Inversion of a successful `analyze_image_quality` call. -/
theorem analyze_ok_inv {c : Codec} {s : String} {res : ImageQualityResult}
    (h : analyze_image_quality c s = Except.ok res) :
    ∃ bytes img, c.b64decode s = some bytes ∧ c.loadFromMemory bytes = some img ∧
      res = analyzeRaster img.pixels := by
  unfold analyze_image_quality at h
  split at h
  · exact absurd h (by simp)
  next bytes hb =>
    split at h
    · exact absurd h (by simp)
    next img hl =>
      refine ⟨bytes, img, hb, hl, ?_⟩
      simp only [Except.ok.injEq] at h
      exact h.symm

/-- The recommendation fallback always leaves a nonempty list. -/
theorem fallback_ite_ne_nil (x : List String) :
    (if x.isEmpty then [msgGood] else x) ≠ [] := by
  split
  · simp
  next h =>
    intro hnil
    rw [hnil] at h
    simp at h

/-- `recommendationsFor` never returns the empty list. -/
theorem fallback_ne_nil (ps : List Rgb) : recommendationsFor ps ≠ [] := by
  unfold recommendationsFor
  exact fallback_ite_ne_nil _

/-- Forward evaluation of a successful `compress_image` call. -/
theorem compress_image_eq_ok {c : Codec} {s : String}
    {opts : ImageCompressionOptions} {bytes : List Nat} {img0 : RgbImage}
    {out : List Nat}
    (hb : c.b64decode s = some bytes) (hl : c.loadFromMemory bytes = some img0)
    (he : encodeOutput c (resizedImg c opts img0) (opts.format.getD ("jpeg"))
        (opts.quality.getD 85) = Except.ok out) :
    compress_image c s opts = Except.ok
      { data := c.b64encode out
        format := opts.format.getD ("jpeg")
        width := (resizedImg c opts img0).width
        height := (resizedImg c opts img0).height
        size_bytes := out.length
        compression_ratio := (bytes.length : ℚ) / (out.length : ℚ) } := by
  unfold compress_image
  rw [hb]
  dsimp only
  rw [hl]
  dsimp only
  rw [he]

/-! ## Claim theorems -/

/-- C3: with `options.format = "webp"`, `compress_image` never returns an Ok
result for any input, and whenever the input payload decodes to an image the
failure is exactly the unsupported-format error of lib.rs line 241. -/
theorem webp_always_fails (c : Codec) (s : String)
    (opts : ImageCompressionOptions) (hfmt : opts.format = some ("webp")) :
    (∀ res, compress_image c s opts ≠ Except.ok res) ∧
    (∀ bytes img, c.b64decode s = some bytes →
      c.loadFromMemory bytes = some img →
      compress_image c s opts = Except.error ("WebP encoding not yet supported")) := by
  have henc : ∀ img q, encodeOutput c img ("webp") q
      = Except.error ("WebP encoding not yet supported") := fun _ _ => rfl
  constructor
  · intro res h
    obtain ⟨bytes, img0, out, hb, hl, he, _⟩ := compress_image_ok_inv h
    rw [hfmt] at he
    simp only [Option.getD_some] at he
    rw [henc] at he
    exact absurd he (by simp)
  · intro bytes img hb hl
    unfold compress_image
    rw [hb]
    dsimp only
    rw [hl]
    dsimp only
    rw [hfmt]
    simp only [Option.getD_some]
    rw [henc]

/-- C3 witness: a concrete webp request fails with the unsupported error. -/
theorem webp_always_fails_witness :
    compress_image (mkCodec ⟨2, 2, []⟩) "a"
        ⟨none, none, none, some ("webp")⟩
      = Except.error ("WebP encoding not yet supported") :=
  (webp_always_fails (mkCodec ⟨2, 2, []⟩) "a"
    ⟨none, none, none, some ("webp")⟩ rfl).2 [97] ⟨2, 2, []⟩ rfl rfl

/-- C4: on any decodable input, `detect_receipt_contour` reports the fixed
detected result (confidence 0.8, frame corners clockwise from the origin,
full-frame bounding box, zero angle) exactly when the aspect ratio
`width / height` lies strictly between 3/2 and 4, and the fixed non-detected
result (confidence 0.2, no optional fields) otherwise. -/
theorem detect_classification (c : Codec) (s : String) (bytes : List Nat)
    (img : RgbImage) (res : ReceiptContourResult)
    (hb : c.b64decode s = some bytes) (hl : c.loadFromMemory bytes = some img)
    (h : detect_receipt_contour c s = Except.ok res) :
    ((3/2 < (img.width : ℚ) / (img.height : ℚ)
        ∧ (img.width : ℚ) / (img.height : ℚ) < 4) →
      res = { detected := true
              confidence := 0.8
              corners := some [(0, 0), ((img.width : ℚ), 0),
                ((img.width : ℚ), (img.height : ℚ)), (0, (img.height : ℚ))]
              bounding_box := some (0, 0, (img.width : ℚ), (img.height : ℚ))
              angle := some 0 }) ∧
    (¬ (3/2 < (img.width : ℚ) / (img.height : ℚ)
        ∧ (img.width : ℚ) / (img.height : ℚ) < 4) →
      res = { detected := false
              confidence := 0.2
              corners := none
              bounding_box := none
              angle := none }) := by
  obtain ⟨bytes', img', hb', hl', hres⟩ := detect_ok_inv h
  rw [hb] at hb'
  injection hb' with hbytes
  subst hbytes
  rw [hl] at hl'
  injection hl' with himg
  subst himg
  subst hres
  constructor
  · intro hc
    have hc' : (1.5 : ℚ) < (img.width : ℚ) / (img.height : ℚ)
        ∧ (img.width : ℚ) / (img.height : ℚ) < (4.0 : ℚ) := by
      constructor
      · have := hc.1
        norm_num at this ⊢
        exact this
      · have := hc.2
        norm_num at this ⊢
        exact this
    simp only [detectFromDims, if_pos hc']
  · intro hc
    have hc' : ¬ ((1.5 : ℚ) < (img.width : ℚ) / (img.height : ℚ)
        ∧ (img.width : ℚ) / (img.height : ℚ) < (4.0 : ℚ)) := by
      intro hx
      exact hc ⟨by norm_num at hx ⊢; exact hx.1, by norm_num at hx ⊢; exact hx.2⟩
    simp only [detectFromDims, if_neg hc']

/-- C4 witness: a 300x150 frame (aspect ratio 2) is classified as a receipt. -/
theorem detect_classification_witness :
    detect_receipt_contour (mkCodec ⟨300, 150, []⟩) "a"
        = Except.ok (detectFromDims 300 150)
    ∧ (detectFromDims 300 150).detected = true := by
  refine ⟨rfl, ?_⟩
  have h := (detect_classification (mkCodec ⟨300, 150, []⟩) "a" [97] ⟨300, 150, []⟩
      (detectFromDims 300 150) rfl rfl rfl).1 (by norm_num)
  rw [h]

/-- C5: in every successful detection result, the corners and the bounding
box are present if and only if `detected` is true. -/
theorem contour_fields_iff_detected (c : Codec) (s : String)
    (res : ReceiptContourResult)
    (h : detect_receipt_contour c s = Except.ok res) :
    ((res.corners.isSome ∧ res.bounding_box.isSome) ↔ res.detected = true) := by
  obtain ⟨bytes, img, hb, hl, hres⟩ := detect_ok_inv h
  subst hres
  by_cases hc : (1.5 : ℚ) < (img.width : ℚ) / (img.height : ℚ)
      ∧ (img.width : ℚ) / (img.height : ℚ) < (4.0 : ℚ)
  · simp [detectFromDims, if_pos hc]
  · simp [detectFromDims, if_neg hc]

/-- C5 witness: the invariant at a concrete non-receipt-like frame. -/
theorem contour_fields_iff_detected_witness :
    detect_receipt_contour (mkCodec ⟨300, 310, []⟩) "a"
        = Except.ok (detectFromDims 300 310)
    ∧ (((detectFromDims 300 310).corners.isSome
        ∧ (detectFromDims 300 310).bounding_box.isSome)
      ↔ (detectFromDims 300 310).detected = true) :=
  ⟨rfl, contour_fields_iff_detected (mkCodec ⟨300, 310, []⟩) "a" _ rfl⟩

/-- C6: every successful quality analysis reports an overall quality that is
the arithmetic mean of the three component scores. -/
theorem overall_is_mean (c : Codec) (s : String) (res : ImageQualityResult)
    (h : analyze_image_quality c s = Except.ok res) :
    res.overall_quality
      = (res.sharpness_score + res.contrast_score + res.brightness_score) / 3 := by
  obtain ⟨bytes, img, hb, hl, hres⟩ := analyze_ok_inv h
  subst hres
  simp only [analyzeRaster, overall_quality]
  ring

/-- C6 witness: the mean identity at a concrete one-pixel raster. -/
theorem overall_is_mean_witness :
    analyze_image_quality (mkCodec ⟨1, 1, [⟨128, 128, 128⟩]⟩) "a"
        = Except.ok (analyzeRaster [⟨128, 128, 128⟩])
    ∧ (analyzeRaster [⟨128, 128, 128⟩]).overall_quality
        = ((analyzeRaster [⟨128, 128, 128⟩]).sharpness_score
          + (analyzeRaster [⟨128, 128, 128⟩]).contrast_score
          + (analyzeRaster [⟨128, 128, 128⟩]).brightness_score) / 3 :=
  ⟨rfl, overall_is_mean (mkCodec ⟨1, 1, [⟨128, 128, 128⟩]⟩) "a" _ rfl⟩

/-- C8: every successful quality analysis returns at least one
recommendation: the fallback message is appended when no rule triggers. -/
theorem recommendations_nonempty (c : Codec) (s : String)
    (res : ImageQualityResult)
    (h : analyze_image_quality c s = Except.ok res) :
    res.recommendations ≠ [] := by
  obtain ⟨bytes, img, hb, hl, hres⟩ := analyze_ok_inv h
  subst hres
  simp only [analyzeRaster]
  exact fallback_ne_nil _

/-- C8 witness: a concrete analysis produces a nonempty recommendation list. -/
theorem recommendations_nonempty_witness :
    analyze_image_quality (mkCodec ⟨1, 1, [⟨0, 0, 0⟩]⟩) "a"
        = Except.ok (analyzeRaster [⟨0, 0, 0⟩])
    ∧ (analyzeRaster [⟨0, 0, 0⟩]).recommendations ≠ [] :=
  ⟨rfl, recommendations_nonempty (mkCodec ⟨1, 1, [⟨0, 0, 0⟩]⟩) "a" _ rfl⟩

/-- C1 counterexample: a 100x100 image compressed with
`max_width = 200, max_height = 100` comes back as 100x100, because
`DynamicImage::resize` preserves the aspect ratio and fits within the
bounds; the claim demands exactly (200, 100). -/
theorem compress_both_bounds_counterexample :
    (compress_image (mkCodec ⟨100, 100, []⟩) "a"
        ⟨some 200, some 100, none, none⟩).toOption.map
      (fun r => (r.width, r.height)) = some (100, 100)
    ∧ some ((100 : Nat), (100 : Nat)) ≠ some ((200 : Nat), (100 : Nat)) := by
  have e1 : resize_dimensions 100 100 200 100 = (100, 100) := by
    rw [resize_dimensions_fitH 100 100 200 100 (by norm_num) (by norm_num)
      (by norm_num [u32Max]) (by norm_num [u32Max]) (by push_cast; norm_num)]
    rw [show ((100 : Nat) : ℚ) * (((100 : Nat) : ℚ) / ((100 : Nat) : ℚ))
        = (((100 : Nat) : ℚ)) by push_cast; norm_num]
    rw [rround_natCast, Int.toNat_natCast]
    simp
  have himg : resizedImg (mkCodec ⟨100, 100, []⟩)
      ⟨some 200, some 100, none, none⟩ ⟨100, 100, []⟩ = ⟨100, 100, []⟩ := by
    unfold resizedImg resizeTarget dynResize
    dsimp only
    rw [if_neg (by simp), e1]
    simp [mkCodec]
  have hc := @compress_image_eq_ok (mkCodec ⟨100, 100, []⟩) "a"
    ⟨some 200, some 100, none, none⟩ [97] ⟨100, 100, []⟩ [42] rfl rfl rfl
  refine ⟨?_, by decide⟩
  rw [hc]
  simp only [Except.toOption, Option.map_some]
  rw [himg]
  rfl

/-- C1 (amended): when both `max_width` and `max_height` are given,
`compress_image` resizes aspect-preserving to the largest size fitting
within the bounds — `DynamicImage::resize` semantics, computed by
`resize_dimensions` — so the returned dimensions are that fit, not exactly
`(max_width, max_height)` in general. -/
theorem compress_both_bounds_dims (c : Codec) (s : String)
    (opts : ImageCompressionOptions) (bytes : List Nat) (img0 : RgbImage)
    (mw mh : Nat) (res : CompressedImageResult)
    (hb : c.b64decode s = some bytes) (hl : c.loadFromMemory bytes = some img0)
    (hmw : opts.max_width = some mw) (hmh : opts.max_height = some mh)
    (hw : 1 ≤ img0.width) (hh : 1 ≤ img0.height)
    (hwU : img0.width ≤ u32Max) (hhU : img0.height ≤ u32Max)
    (h : compress_image c s opts = Except.ok res) :
    (res.width, res.height) = resize_dimensions img0.width img0.height mw mh := by
  obtain ⟨bytes', img0', out, hb', hl', he, hres⟩ := compress_image_ok_inv h
  rw [hb] at hb'
  injection hb' with h1
  subst h1
  rw [hl] at hl'
  injection hl' with h2
  subst h2
  subst hres
  dsimp only
  unfold resizedImg resizeTarget
  rw [hmw, hmh]
  dsimp only
  unfold dynResize
  split
  next hcase =>
    rw [hcase.1, hcase.2, resize_dimensions_self _ _ hw hh hwU hhU]
  next => rfl

/-- C1 witness: concrete instantiation of the amended theorem. -/
theorem compress_both_bounds_dims_witness :
    compress_image (mkCodec ⟨100, 100, []⟩) "a" ⟨some 200, some 100, none, none⟩
      = Except.ok
        { data := (mkCodec (⟨100, 100, []⟩ : RgbImage)).b64encode [42]
          format := (⟨some 200, some 100, none, none⟩ :
            ImageCompressionOptions).format.getD ("jpeg")
          width := (resizedImg (mkCodec ⟨100, 100, []⟩)
            ⟨some 200, some 100, none, none⟩ ⟨100, 100, []⟩).width
          height := (resizedImg (mkCodec ⟨100, 100, []⟩)
            ⟨some 200, some 100, none, none⟩ ⟨100, 100, []⟩).height
          size_bytes := ([42] : List Nat).length
          compression_ratio :=
            (([97] : List Nat).length : ℚ) / (([42] : List Nat).length : ℚ) }
    ∧ ((resizedImg (mkCodec ⟨100, 100, []⟩)
          ⟨some 200, some 100, none, none⟩ ⟨100, 100, []⟩).width,
       (resizedImg (mkCodec ⟨100, 100, []⟩)
          ⟨some 200, some 100, none, none⟩ ⟨100, 100, []⟩).height)
        = resize_dimensions 100 100 200 100 := by
  have hb : (mkCodec (⟨100, 100, []⟩ : RgbImage)).b64decode "a" = some [97] := rfl
  have hl : (mkCodec (⟨100, 100, []⟩ : RgbImage)).loadFromMemory [97]
      = some ⟨100, 100, []⟩ := rfl
  have hc := @compress_image_eq_ok (mkCodec ⟨100, 100, []⟩) "a"
    ⟨some 200, some 100, none, none⟩ [97] ⟨100, 100, []⟩ [42] hb hl rfl
  exact ⟨hc, compress_both_bounds_dims _ _ _ _ _ _ _ _ hb hl rfl rfl
    (by norm_num) (by norm_num) (by norm_num [u32Max]) (by norm_num [u32Max]) hc⟩

/-- Height of the resize performed when only `max_width` is given is within
one pixel of the rounded aspect-preserving target, provided the f32-to-u32
cast does not saturate. -/
theorem dynResize_height_near (c : Codec) (img0 : RgbImage) (mw : Nat)
    (hw : 1 ≤ img0.width) (hh : 1 ≤ img0.height) (hmwU : mw ≤ u32Max)
    (hT : (img0.height : ℚ) * ((mw : ℚ) / (img0.width : ℚ)) ≤ (u32Max : ℚ)) :
    |(((dynResize c img0 mw
        (f32toU32 ((img0.height : ℚ) * ((mw : ℚ) / (img0.width : ℚ))))).height : ℤ))
      - rround ((img0.height : ℚ) * ((mw : ℚ) / (img0.width : ℚ)))| ≤ 1 := by
  set w := img0.width with hwdef
  set h := img0.height with hhdef
  set T : ℚ := (h : ℚ) * ((mw : ℚ) / (w : ℚ)) with hTdef
  have hw0 : (0 : ℚ) < (w : ℚ) := by exact_mod_cast Nat.lt_of_lt_of_le Nat.zero_lt_one hw
  have hh0 : (0 : ℚ) < (h : ℚ) := by exact_mod_cast Nat.lt_of_lt_of_le Nat.zero_lt_one hh
  have hT0 : 0 ≤ T := by positivity
  have hft : f32toU32 T = ⌊T⌋.toNat := f32toU32_eq_floor hT0 hT
  have hfl0 : (0 : ℤ) ≤ ⌊T⌋ := Int.floor_nonneg.mpr hT0
  have hflU : ⌊T⌋.toNat ≤ u32Max := by
    have h1 : ⌊T⌋ ≤ (u32Max : ℤ) := by
      have hcastU : (⌊((u32Max : Nat) : ℚ)⌋ : ℤ) = (u32Max : ℤ) :=
        Int.floor_natCast u32Max
      rw [← hcastU]
      exact Int.floor_mono hT
    omega
  have hfq : ((⌊T⌋.toNat : ℚ)) ≤ T := by
    have h1 : ((⌊T⌋ : ℚ)) ≤ T := Int.floor_le T
    have h2 : ((⌊T⌋.toNat : ℚ)) = ((⌊T⌋ : ℚ)) := by
      rw [show ((⌊T⌋.toNat : ℚ)) = (((⌊T⌋.toNat : ℤ)) : ℚ) by push_cast; ring,
        Int.toNat_of_nonneg hfl0]
    rw [h2]
    exact h1
  have hcond : ((⌊T⌋.toNat : ℚ)) / (h : ℚ) ≤ (mw : ℚ) / (w : ℚ) := by
    rw [div_le_iff₀ hh0]
    calc ((⌊T⌋.toNat : ℚ)) ≤ T := hfq
      _ = (mw : ℚ) / (w : ℚ) * (h : ℚ) := by rw [hTdef]; ring
  rw [hft]
  unfold dynResize
  split
  next hcase =>
    obtain ⟨hc1, hc2⟩ := hcase
    have h1 : (1 : ℤ) ≤ (⌊T⌋.toNat : ℤ) := by
      have : 1 ≤ ⌊T⌋.toNat := by omega
      exact_mod_cast this
    have h2 := round_near_floor T hT0
    rw [max_eq_left h1] at h2
    rw [← hc2]
    exact h2
  next =>
    rw [resize_dimensions_fitH w h mw ⌊T⌋.toNat hw hh hmwU hflU hcond]
    dsimp only
    rw [Nat.cast_max, Nat.cast_one]
    exact round_near_floor T hT0

/-- Width of the resize performed when only `max_height` is given is within
one pixel of the rounded aspect-preserving target, provided the f32-to-u32
cast does not saturate. -/
theorem dynResize_width_near (c : Codec) (img0 : RgbImage) (mh : Nat)
    (hw : 1 ≤ img0.width) (hh : 1 ≤ img0.height) (hmhU : mh ≤ u32Max)
    (hT : (img0.width : ℚ) * ((mh : ℚ) / (img0.height : ℚ)) ≤ (u32Max : ℚ)) :
    |(((dynResize c img0
        (f32toU32 ((img0.width : ℚ) * ((mh : ℚ) / (img0.height : ℚ)))) mh).width : ℤ))
      - rround ((img0.width : ℚ) * ((mh : ℚ) / (img0.height : ℚ)))| ≤ 1 := by
  set w := img0.width with hwdef
  set h := img0.height with hhdef
  set T : ℚ := (w : ℚ) * ((mh : ℚ) / (h : ℚ)) with hTdef
  have hw0 : (0 : ℚ) < (w : ℚ) := by exact_mod_cast Nat.lt_of_lt_of_le Nat.zero_lt_one hw
  have hh0 : (0 : ℚ) < (h : ℚ) := by exact_mod_cast Nat.lt_of_lt_of_le Nat.zero_lt_one hh
  have hT0 : 0 ≤ T := by positivity
  have hft : f32toU32 T = ⌊T⌋.toNat := f32toU32_eq_floor hT0 hT
  have hfl0 : (0 : ℤ) ≤ ⌊T⌋ := Int.floor_nonneg.mpr hT0
  have hflU : ⌊T⌋.toNat ≤ u32Max := by
    have h1 : ⌊T⌋ ≤ (u32Max : ℤ) := by
      have hcastU : (⌊((u32Max : Nat) : ℚ)⌋ : ℤ) = (u32Max : ℤ) :=
        Int.floor_natCast u32Max
      rw [← hcastU]
      exact Int.floor_mono hT
    omega
  have hfq : ((⌊T⌋.toNat : ℚ)) ≤ T := by
    have h1 : ((⌊T⌋ : ℚ)) ≤ T := Int.floor_le T
    have h2 : ((⌊T⌋.toNat : ℚ)) = ((⌊T⌋ : ℚ)) := by
      rw [show ((⌊T⌋.toNat : ℚ)) = (((⌊T⌋.toNat : ℤ)) : ℚ) by push_cast; ring,
        Int.toNat_of_nonneg hfl0]
    rw [h2]
    exact h1
  have hcond : ((⌊T⌋.toNat : ℚ)) / (w : ℚ) ≤ (mh : ℚ) / (h : ℚ) := by
    rw [div_le_iff₀ hw0]
    calc ((⌊T⌋.toNat : ℚ)) ≤ T := hfq
      _ = (mh : ℚ) / (h : ℚ) * (w : ℚ) := by rw [hTdef]; ring
  rw [hft]
  unfold dynResize
  split
  next hcase =>
    obtain ⟨hc1, hc2⟩ := hcase
    have h1 : (1 : ℤ) ≤ (⌊T⌋.toNat : ℤ) := by
      have : 1 ≤ ⌊T⌋.toNat := by omega
      exact_mod_cast this
    have h2 := round_near_floor T hT0
    rw [max_eq_left h1] at h2
    rw [← hc1]
    exact h2
  next =>
    rw [resize_dimensions_fitW w h ⌊T⌋.toNat mh hw hh hflU hmhU hcond]
    dsimp only
    rw [Nat.cast_max, Nat.cast_one]
    exact round_near_floor T hT0

/-- C2 counterexample: a 1x1000000 image with `max_width = 100000` (valid
`u32` options) should, per the claim, come back about 10^11 pixels tall, but
the `as u32` cast saturates the intermediate target height at `u32::MAX` and
the result height is 4294967295 — off by more than one pixel. -/
theorem compress_single_bound_counterexample :
    (compress_image (mkCodec ⟨1, 1000000, []⟩) "a"
        ⟨some 100000, none, none, none⟩).toOption.map (fun r => r.height)
      = some 4294967295
    ∧ ¬ (|(4294967295 : ℤ)
          - rround ((1000000 : ℚ) * ((100000 : ℚ) / (1 : ℚ)))| ≤ 1) := by
  have hsat : f32toU32 (((1000000 : Nat) : ℚ)
      * (((100000 : Nat) : ℚ) / ((1 : Nat) : ℚ))) = 4294967295 := by
    rw [f32toU32]
    rw [if_neg (by push_cast; norm_num)]
    rw [show (((1000000 : Nat) : ℚ) * (((100000 : Nat) : ℚ) / ((1 : Nat) : ℚ)))
        = ((100000000000 : Nat) : ℚ) by push_cast; norm_num]
    rw [Int.floor_natCast, Int.toNat_natCast]
    norm_num [u32Max]
  have hrr : rround (((1 : Nat) : ℚ)
      * (((4294967295 : Nat) : ℚ) / ((1000000 : Nat) : ℚ))) = 4295 := by
    rw [rround, if_pos (by positivity)]
    rw [show ((1 : Nat) : ℚ) * (((4294967295 : Nat) : ℚ) / ((1000000 : Nat) : ℚ))
        + 1/2 = (4295467295 : ℚ) / 1000000 by push_cast; norm_num]
    norm_num
  have e2 : resize_dimensions 1 1000000 100000 4294967295
      = (4295, 4294967295) := by
    rw [resize_dimensions_fitH 1 1000000 100000 4294967295 (by norm_num)
      (by norm_num) (by norm_num [u32Max]) (by norm_num [u32Max])
      (by push_cast; norm_num)]
    rw [hrr]
    simp
  have himg2 : resizedImg (mkCodec ⟨1, 1000000, []⟩)
      ⟨some 100000, none, none, none⟩ ⟨1, 1000000, []⟩
      = ⟨4295, 4294967295, []⟩ := by
    unfold resizedImg resizeTarget dynResize
    dsimp only
    rw [hsat]
    rw [if_neg (by norm_num)]
    rw [e2]
    simp [mkCodec]
  have hc := @compress_image_eq_ok (mkCodec ⟨1, 1000000, []⟩) "a"
    ⟨some 100000, none, none, none⟩ [97] ⟨1, 1000000, []⟩ [42] rfl rfl rfl
  constructor
  · rw [hc]
    simp only [Except.toOption, Option.map_some]
    rw [himg2]
    rfl
  · have hval : rround ((1000000 : ℚ) * ((100000 : ℚ) / (1 : ℚ)))
        = 100000000000 := by
      rw [rround, if_pos (by norm_num)]
      rw [show (1000000 : ℚ) * ((100000 : ℚ) / (1 : ℚ)) + 1/2
          = (200000000001 : ℚ) / 2 by norm_num]
      norm_num
    rw [hval]
    norm_num

/-- C2 (amended): with only one bound given and the raster nonempty, if the
intermediate f32 target (`original_other_dim * bound / original_dim`) does
not exceed `u32::MAX` (so the `as u32` cast does not saturate), the output
dimension on the scaled side is within one pixel of the rounded
aspect-preserving target; with saturation the output can be arbitrarily far
from it (see the counterexample). -/
theorem compress_single_bound_near_round (c : Codec) (s : String)
    (opts : ImageCompressionOptions) (bytes : List Nat) (img0 : RgbImage)
    (res : CompressedImageResult)
    (hb : c.b64decode s = some bytes) (hl : c.loadFromMemory bytes = some img0)
    (hw : 1 ≤ img0.width) (hh : 1 ≤ img0.height)
    (h : compress_image c s opts = Except.ok res) :
    (∀ mw, opts.max_width = some mw → opts.max_height = none → mw ≤ u32Max →
      (img0.height : ℚ) * ((mw : ℚ) / (img0.width : ℚ)) ≤ (u32Max : ℚ) →
      |(res.height : ℤ)
        - rround ((img0.height : ℚ) * ((mw : ℚ) / (img0.width : ℚ)))| ≤ 1) ∧
    (∀ mh, opts.max_height = some mh → opts.max_width = none → mh ≤ u32Max →
      (img0.width : ℚ) * ((mh : ℚ) / (img0.height : ℚ)) ≤ (u32Max : ℚ) →
      |(res.width : ℤ)
        - rround ((img0.width : ℚ) * ((mh : ℚ) / (img0.height : ℚ)))| ≤ 1) := by
  obtain ⟨bytes', img0', out, hb', hl', he, hres⟩ := compress_image_ok_inv h
  rw [hb] at hb'
  injection hb' with h1
  subst h1
  rw [hl] at hl'
  injection hl' with h2
  subst h2
  subst hres
  constructor
  · intro mw hmw hmh hmwU hT
    dsimp only
    unfold resizedImg resizeTarget
    rw [hmw, hmh]
    dsimp only
    exact dynResize_height_near c img0 mw hw hh hmwU hT
  · intro mh hmh hmw hmhU hT
    dsimp only
    unfold resizedImg resizeTarget
    rw [hmw, hmh]
    dsimp only
    exact dynResize_width_near c img0 mh hw hh hmhU hT

/-- C2 witness: concrete instantiation of the amended theorem on a 100x50
image with `max_width = 200`. -/
theorem compress_single_bound_near_round_witness :
    compress_image (mkCodec ⟨100, 50, []⟩) "a" ⟨some 200, none, none, none⟩
      = Except.ok
        { data := (mkCodec (⟨100, 50, []⟩ : RgbImage)).b64encode [42]
          format := (⟨some 200, none, none, none⟩ :
            ImageCompressionOptions).format.getD ("jpeg")
          width := (resizedImg (mkCodec ⟨100, 50, []⟩)
            ⟨some 200, none, none, none⟩ ⟨100, 50, []⟩).width
          height := (resizedImg (mkCodec ⟨100, 50, []⟩)
            ⟨some 200, none, none, none⟩ ⟨100, 50, []⟩).height
          size_bytes := ([42] : List Nat).length
          compression_ratio :=
            (([97] : List Nat).length : ℚ) / (([42] : List Nat).length : ℚ) }
    ∧ |(((resizedImg (mkCodec ⟨100, 50, []⟩)
          ⟨some 200, none, none, none⟩ ⟨100, 50, []⟩).height : ℤ))
        - rround ((((50 : Nat)) : ℚ) * ((((200 : Nat)) : ℚ) / (((100 : Nat)) : ℚ)))| ≤ 1 := by
  have hb : (mkCodec (⟨100, 50, []⟩ : RgbImage)).b64decode "a" = some [97] := rfl
  have hl : (mkCodec (⟨100, 50, []⟩ : RgbImage)).loadFromMemory [97]
      = some ⟨100, 50, []⟩ := rfl
  have hc := @compress_image_eq_ok (mkCodec ⟨100, 50, []⟩) "a"
    ⟨some 200, none, none, none⟩ [97] ⟨100, 50, []⟩ [42] hb hl rfl
  refine ⟨hc, ?_⟩
  have h := (compress_single_bound_near_round _ _ _ _ _ _ hb hl
    (by norm_num) (by norm_num) hc).1 200 rfl rfl (by norm_num [u32Max])
    (by push_cast; norm_num [u32Max])
  exact h

/-- A successful encode under a well-formed codec yields a nonempty output
buffer. -/
theorem encodeOutput_ok_ne_nil {c : Codec} {img : RgbImage} {format : String}
    {quality : Nat} {out : List Nat} (hWF : c.WF)
    (he : encodeOutput c img format quality = Except.ok out) : out ≠ [] := by
  unfold encodeOutput at he
  split at he
  · split at he
    next out' hj =>
      injection he with h
      subst h
      exact hWF.2.1 _ _ _ hj
    next => exact absurd he (by simp)
  · split at he
    next out' hj =>
      injection he with h
      subst h
      exact hWF.2.1 _ _ _ hj
    next => exact absurd he (by simp)
  · split at he
    next out' hp =>
      injection he with h
      subst h
      exact hWF.2.2 _ _ hp
    next => exact absurd he (by simp)
  · exact absurd he (by simp)
  · exact absurd he (by simp)

/-- The witness codec is well-formed. -/
theorem mkCodec_wf (img : RgbImage) : (mkCodec img).WF := by
  refine ⟨?_, ?_, ?_⟩
  · intro bytes i hl hnil
    subst hnil
    simp [mkCodec] at hl
  · intro i q out he
    simp only [mkCodec] at he
    injection he with h
    subst h
    simp
  · intro i out he
    simp only [mkCodec] at he
    injection he with h
    subst h
    simp

/-- C9: for every successful compression under a well-formed codec, the
reported ratio is the byte length of the base64-decoded input payload
divided by the re-encoded output byte length, and it is strictly positive. -/
theorem compression_ratio_spec (c : Codec) (s : String)
    (opts : ImageCompressionOptions) (bytes : List Nat)
    (res : CompressedImageResult) (hWF : c.WF)
    (hb : c.b64decode s = some bytes)
    (h : compress_image c s opts = Except.ok res) :
    res.compression_ratio = (bytes.length : ℚ) / (res.size_bytes : ℚ)
    ∧ 0 < res.compression_ratio := by
  obtain ⟨bytes', img0, out, hb', hl', he, hres⟩ := compress_image_ok_inv h
  rw [hb] at hb'
  injection hb' with h1
  subst h1
  subst hres
  dsimp only
  refine ⟨rfl, ?_⟩
  have hbne : bytes ≠ [] := hWF.1 bytes img0 hl'
  have houtne : out ≠ [] := encodeOutput_ok_ne_nil hWF he
  have h1 : (0 : ℚ) < (bytes.length : ℚ) := by
    have := List.length_pos.mpr hbne
    exact_mod_cast this
  have h2 : (0 : ℚ) < (out.length : ℚ) := by
    have := List.length_pos.mpr houtne
    exact_mod_cast this
  exact div_pos h1 h2

/-- C9 witness: concrete instantiation of the ratio specification. -/
theorem compression_ratio_spec_witness :
    compress_image (mkCodec ⟨2, 2, []⟩) "a" ⟨none, none, none, none⟩
      = Except.ok
        { data := (mkCodec (⟨2, 2, []⟩ : RgbImage)).b64encode [42]
          format := (⟨none, none, none, none⟩ :
            ImageCompressionOptions).format.getD ("jpeg")
          width := (resizedImg (mkCodec ⟨2, 2, []⟩)
            ⟨none, none, none, none⟩ ⟨2, 2, []⟩).width
          height := (resizedImg (mkCodec ⟨2, 2, []⟩)
            ⟨none, none, none, none⟩ ⟨2, 2, []⟩).height
          size_bytes := ([42] : List Nat).length
          compression_ratio :=
            (([97] : List Nat).length : ℚ) / (([42] : List Nat).length : ℚ) }
    ∧ (([97] : List Nat).length : ℚ) / (([42] : List Nat).length : ℚ)
        = (([97] : List Nat).length : ℚ) / ((([42] : List Nat).length : Nat) : ℚ)
    ∧ 0 < (([97] : List Nat).length : ℚ) / (([42] : List Nat).length : ℚ) := by
  have hb : (mkCodec (⟨2, 2, []⟩ : RgbImage)).b64decode "a" = some [97] := rfl
  have hl : (mkCodec (⟨2, 2, []⟩ : RgbImage)).loadFromMemory [97]
      = some ⟨2, 2, []⟩ := rfl
  have hc := @compress_image_eq_ok (mkCodec ⟨2, 2, []⟩) "a"
    ⟨none, none, none, none⟩ [97] ⟨2, 2, []⟩ [42] hb hl rfl
  have h := compression_ratio_spec (mkCodec ⟨2, 2, []⟩) "a"
    ⟨none, none, none, none⟩ [97] _ (mkCodec_wf _) hb hc
  exact ⟨hc, h.1, h.2⟩

/-- C10: the brightness accumulator is a wrapping `u32`: it always equals
the true pixel-brightness sum modulo 2^32; the sum stays below 2^32 for any
byte-valued raster of at most 16843009 pixels, making the average exact
there; and the reported average is in general computed from the wrapped sum
and wrapped pixel count. -/
theorem brightness_accumulator_wraps (ps : List Rgb) (hbytes : BytePixels ps) :
    total_brightness ps = brightnessSum ps % u32Mod
    ∧ (ps.length ≤ 16843009 → brightnessSum ps < u32Mod)
    ∧ (0 < ps.length → ps.length < u32Mod → brightnessSum ps < u32Mod →
        avg_brightness ps = (brightnessSum ps : ℚ) / (ps.length : ℚ))
    ∧ avg_brightness ps
        = ((brightnessSum ps % u32Mod : Nat) : ℚ)
          / ((ps.length % u32Mod : Nat) : ℚ) := by
  have hwrap := total_brightness_eq ps
  have hpix := total_pixels_eq ps
  refine ⟨hwrap, ?_, ?_, ?_⟩
  · intro hlen
    have hbound : ∀ x ∈ ps.map pixelBrightness, x ≤ 255 := by
      intro x hx
      obtain ⟨p, hp, rfl⟩ := List.mem_map.mp hx
      have hp255 := hbytes p hp
      unfold pixelBrightness
      omega
    have hsum := List.sum_le_card_nsmul (ps.map pixelBrightness) 255 hbound
    rw [List.length_map, smul_eq_mul] at hsum
    unfold brightnessSum
    unfold u32Mod
    omega
  · intro hpos hlt hsum
    unfold avg_brightness
    rw [hwrap, hpix, Nat.mod_eq_of_lt hsum, Nat.mod_eq_of_lt hlt]
  · unfold avg_brightness
    rw [hwrap, hpix]

/-- C10 witness: concrete instantiation on a one-pixel all-white raster. -/
theorem brightness_accumulator_wraps_witness :
    BytePixels [⟨255, 255, 255⟩]
    ∧ total_brightness [⟨255, 255, 255⟩]
        = brightnessSum [⟨255, 255, 255⟩] % u32Mod :=
  ⟨by unfold BytePixels; decide,
   (brightness_accumulator_wraps [⟨255, 255, 255⟩]
     (by unfold BytePixels; decide)).1⟩

/-- C7 counterexample: an all-white raster of 16843010 pixels (e.g. a large
photo; 255 * 16843010 exceeds 2^32) wraps the `u32` brightness accumulator
down to 254, so the reported brightness score is far from the claimed 1.0
and the too-dark recommendation fires instead of the overexposed one. -/
theorem analyze_white_counterexample :
    (analyze_image_quality
        (mkCodec ⟨16843010, 1, List.replicate 16843010 ⟨255, 255, 255⟩⟩)
        "a").toOption.map ImageQualityResult.brightness_score ≠ some 1
    ∧ (analyze_image_quality
        (mkCodec ⟨16843010, 1, List.replicate 16843010 ⟨255, 255, 255⟩⟩)
        "a").toOption.map ImageQualityResult.recommendations
      = some [msgTooDark] := by
  have hana : analyze_image_quality
      (mkCodec ⟨16843010, 1, List.replicate 16843010 ⟨255, 255, 255⟩⟩) "a"
      = Except.ok (analyzeRaster (List.replicate 16843010 ⟨255, 255, 255⟩)) := rfl
  have hsum : brightnessSum (List.replicate 16843010 ⟨255, 255, 255⟩)
      = 16843010 * 255 := by
    unfold brightnessSum
    rw [sum_map_const_of_mem _ (fun p hp => by
      rw [List.eq_of_mem_replicate hp])]
    rw [List.length_replicate]
    decide
  have hscore : brightness_score (List.replicate 16843010 ⟨255, 255, 255⟩)
      = (254 : ℚ) / 16843010 / 255 := by
    unfold brightness_score avg_brightness
    rw [total_brightness_eq, total_pixels_eq, hsum, List.length_replicate]
    rw [show (16843010 * 255) % u32Mod = 254 by decide,
      show 16843010 % u32Mod = 16843010 by decide]
    rw [min_eq_left (by push_cast; norm_num)]
    push_cast
    ring
  have hrec : recommendationsFor (List.replicate 16843010 ⟨255, 255, 255⟩)
      = [msgTooDark] := by
    unfold recommendationsFor
    rw [hscore]
    norm_num [sharpness_score, contrast_score]
  constructor
  · rw [hana]
    dsimp only [Except.toOption, Option.map]
    intro habs
    injection habs with h1
    rw [show (analyzeRaster (List.replicate 16843010 ⟨255, 255, 255⟩)).brightness_score
      = brightness_score (List.replicate 16843010 ⟨255, 255, 255⟩) from rfl, hscore] at h1
    norm_num at h1
  · rw [hana]
    dsimp only [Except.toOption, Option.map]
    rw [show (analyzeRaster (List.replicate 16843010 ⟨255, 255, 255⟩)).recommendations
      = recommendationsFor (List.replicate 16843010 ⟨255, 255, 255⟩) from rfl, hrec]

/-- C7 (amended): for every decodable nonempty raster whose pixel count and
true brightness sum fit in a `u32` (so the accumulator does not wrap —
guaranteed up to 16843009 pixels), the brightness score is
`min(mean((R+G+B)/3) / 255, 1)`, and the three calibration scenarios hold:
all-white gives score 1 with the overexposed recommendation, all-black gives
score 0 with the too-dark recommendation, and uniform mid-gray (128) gives
exactly the single quality-is-good recommendation. -/
theorem analyze_brightness_scenarios (c : Codec) (s : String) (bytes : List Nat)
    (img : RgbImage) (res : ImageQualityResult)
    (hb : c.b64decode s = some bytes) (hl : c.loadFromMemory bytes = some img)
    (h : analyze_image_quality c s = Except.ok res)
    (hne : img.pixels ≠ [])
    (hlen : img.pixels.length < u32Mod)
    (hsum : brightnessSum img.pixels < u32Mod) :
    res.brightness_score
      = min ((brightnessSum img.pixels : ℚ) / (img.pixels.length : ℚ) / 255) 1
    ∧ ((∀ p ∈ img.pixels, p = ⟨255, 255, 255⟩) →
        res.brightness_score = 1 ∧ msgOverexposed ∈ res.recommendations)
    ∧ ((∀ p ∈ img.pixels, p = ⟨0, 0, 0⟩) →
        res.brightness_score = 0 ∧ msgTooDark ∈ res.recommendations)
    ∧ ((∀ p ∈ img.pixels, p = ⟨128, 128, 128⟩) →
        res.recommendations = [msgGood]) := by
  obtain ⟨bytes', img', hb', hl', hres⟩ := analyze_ok_inv h
  rw [hb] at hb'
  injection hb' with h1
  subst h1
  rw [hl] at hl'
  injection hl' with h2
  subst h2
  subst hres
  have hn0 : (0 : ℚ) < (img.pixels.length : ℚ) := by
    have := List.length_pos.mpr hne
    exact_mod_cast this
  have hbase : brightness_score img.pixels
      = min ((brightnessSum img.pixels : ℚ) / (img.pixels.length : ℚ) / 255) 1 := by
    unfold brightness_score avg_brightness
    rw [total_brightness_eq, total_pixels_eq, Nat.mod_eq_of_lt hsum,
      Nat.mod_eq_of_lt hlen]
  refine ⟨hbase, ?_, ?_, ?_⟩
  · intro hall
    have hsw : brightnessSum img.pixels = img.pixels.length * 255 := by
      unfold brightnessSum
      exact sum_map_const_of_mem _ (fun p hp => by rw [hall p hp]; decide)
    have hs1 : brightness_score img.pixels = 1 := by
      rw [hbase, hsw]
      have hv : ((img.pixels.length * 255 : Nat) : ℚ)
          / (img.pixels.length : ℚ) / 255 = 1 := by
        push_cast
        field_simp
      rw [hv, min_self]
    refine ⟨hs1, ?_⟩
    show msgOverexposed ∈ recommendationsFor img.pixels
    unfold recommendationsFor
    rw [hs1]
    norm_num [sharpness_score, contrast_score]
  · intro hall
    have hsb : brightnessSum img.pixels = img.pixels.length * 0 := by
      unfold brightnessSum
      exact sum_map_const_of_mem _ (fun p hp => by rw [hall p hp]; decide)
    have hs0 : brightness_score img.pixels = 0 := by
      rw [hbase, hsb]
      push_cast
      rw [mul_zero, zero_div, zero_div]
      norm_num
    refine ⟨hs0, ?_⟩
    show msgTooDark ∈ recommendationsFor img.pixels
    unfold recommendationsFor
    rw [hs0]
    norm_num [sharpness_score, contrast_score]
  · intro hall
    have hsg : brightnessSum img.pixels = img.pixels.length * 128 := by
      unfold brightnessSum
      exact sum_map_const_of_mem _ (fun p hp => by rw [hall p hp]; decide)
    have hsv : brightness_score img.pixels = (128 : ℚ) / 255 := by
      rw [hbase, hsg]
      have hv : ((img.pixels.length * 128 : Nat) : ℚ)
          / (img.pixels.length : ℚ) / 255 = (128 : ℚ) / 255 := by
        push_cast
        field_simp
      rw [hv, min_eq_left (by norm_num)]
    show recommendationsFor img.pixels = [msgGood]
    unfold recommendationsFor
    rw [hsv]
    norm_num [sharpness_score, contrast_score]

/-- C7 witness: concrete instantiation on a one-pixel all-white raster. -/
theorem analyze_brightness_scenarios_witness :
    analyze_image_quality (mkCodec ⟨1, 1, [⟨255, 255, 255⟩]⟩) "a"
      = Except.ok (analyzeRaster [⟨255, 255, 255⟩])
    ∧ (analyzeRaster [⟨255, 255, 255⟩]).brightness_score = 1
    ∧ msgOverexposed ∈ (analyzeRaster [⟨255, 255, 255⟩]).recommendations := by
  have hana : analyze_image_quality (mkCodec ⟨1, 1, [⟨255, 255, 255⟩]⟩) "a"
      = Except.ok (analyzeRaster [⟨255, 255, 255⟩]) := rfl
  have h := (analyze_brightness_scenarios (mkCodec ⟨1, 1, [⟨255, 255, 255⟩]⟩)
    "a" [97] ⟨1, 1, [⟨255, 255, 255⟩]⟩ (analyzeRaster [⟨255, 255, 255⟩])
    rfl rfl hana (by simp) (by decide) (by decide)).2.1 (by decide)
  exact ⟨hana, h⟩

end ReceiptCore
